import Mathlib

/-!
Verification development for the ApplicationSet controller
(`applicationset/controllers/applicationset_controller.go`).

The Go controller is shallowly embedded: each pure decision procedure of the
reconciler is translated into an executable Lean definition, and the spec
claims about them are settled as theorems.  Machine integers are modelled as
`Int`/`Nat`, nil-able Go pointers and slices as `Option`, Go maps as
association lists or lookup functions, and wall-clock times as `Int` epoch
seconds.  External library helpers that the controller calls
(`intstr.GetScaledValueFromIntOrPercent`, `strconv.Atoi`, Go string order,
`sort.Slice`) are modelled by equivalent executable definitions noted at
their declaration.
-/

/-! ## Common data model -/

/-- One entry of `status.applicationStatus`
(`v1alpha1.ApplicationSetApplicationStatus`): application name, message,
rollout status, 1-based step (kept as a decimal string, as in the Go struct),
optional last transition time, and the recorded target revisions (`Option`
distinguishes the Go nil slice from an empty one, which
`reflect.DeepEqual` also distinguishes). -/
structure AppStatus where
  application : String
  message : String
  status : String
  step : String
  lastTransitionTime : Option Int
  targetRevisions : Option (List String)
deriving DecidableEq, Repr

/-- Runtime observations of one child Application, as read by `statusStrings`
and `app.Status.GetRevisions()`: health status, sync status, operation phase
(the empty string when `OperationState` is nil), and the observed target
revisions (`GetRevisions` never returns a nil slice). -/
structure Observation where
  health : String
  sync : String
  phase : String
  revisions : List String
deriving DecidableEq, Repr

/-- `isApplicationHealthy` (controller line 1095): healthy iff health status
is Healthy, sync status is not OutOfSync, and the operation phase is
Succeeded or empty. -/
def isApplicationHealthy (obs : Observation) : Bool :=
  obs.health = "Healthy" && obs.sync ≠ "OutOfSync" &&
    (obs.phase = "Succeeded" || obs.phase = "")

/-- Integer-or-string value (`intstr.IntOrString`) used by `maxUpdate`. -/
inductive IntOrStringV where
  | int (n : Int)
  | str (s : String)
deriving DecidableEq, Repr

/-- One rollout match expression
(`v1alpha1.ApplicationMatchExpression`): key, operator and value list. -/
structure ApplicationMatchExpression where
  key : String
  operator : String
  values : List String
deriving DecidableEq, Repr

/-- One RollingSync step (`v1alpha1.ApplicationSetRolloutStep`): the ANDed
match expressions and the optional `maxUpdate`. -/
structure ApplicationSetRolloutStep where
  matchExpressions : List ApplicationMatchExpression
  maxUpdate : Option IntOrStringV
deriving DecidableEq, Repr

/-- First-match lookup in an association list, modelling access to a Go
`map[string]string` (`val, ok := m[k]`). -/
def lookupMap (m : List (String × String)) (k : String) : Option String :=
  (m.find? (fun p => p.1 = k)).map (fun p => p.2)

/-! ## Step assignment (`buildAppDependencyList`, `labelMatchedExpression`) -/

/-- `labelMatchedExpression` (controller line 1011), evaluated when the label
key exists with value `val`: operators other than In and NotIn never match;
otherwise the value list is scanned, a hit returning true exactly for In. -/
def labelMatchedExpression (val : String) (m : ApplicationMatchExpression) : Bool :=
  if m.operator ≠ "In" && m.operator ≠ "NotIn" then false
  else if m.values.contains val then m.operator = "In"
  else m.operator = "NotIn"

/-- The inner selection loop of `buildAppDependencyList` (lines 981-995): a
step selects an application unless some match expression fails, where an
expression with a present key fails iff `labelMatchedExpression` is false,
and an expression with an absent key fails iff its operator is In. -/
def stepSelected (labels : List (String × String))
    (step : ApplicationSetRolloutStep) : Bool :=
  step.matchExpressions.all fun m =>
    match lookupMap labels m.key with
    | some val => labelMatchedExpression val m
    | none => !(m.operator = "In")

/-- The per-application part of the step loop of `buildAppDependencyList`
(lines 980-1005): walk the steps in order and record the index of the first
selecting step in `appStepMap` (later selecting steps only log a warning). -/
def buildAppStepGo (labels : List (String × String)) (i : Nat) (acc : Option Nat) :
    List ApplicationSetRolloutStep → Option Nat
  | [] => acc
  | st :: rest =>
      buildAppStepGo labels (i + 1)
        (if stepSelected labels st && acc.isNone then some i else acc) rest

/-- The `appStepMap` entry computed by `buildAppDependencyList` for one
application with the given labels. -/
def buildAppStep (labels : List (String × String))
    (steps : List ApplicationSetRolloutStep) : Option Nat :=
  buildAppStepGo labels 0 none steps

/-- `getAppStep` (line 1115) applied to the lookup result in `appStepMap`:
1-based step index, `-1` when the application was selected by no step. -/
def getAppStep (assigned : Option Nat) : Int :=
  match assigned with
  | some i => (i : Int) + 1
  | none => -1

/-- The recorded `Step` for an application: composition of
`buildAppDependencyList` and `getAppStep`. -/
def appStepNumber (labels : List (String × String))
    (steps : List ApplicationSetRolloutStep) : Int :=
  getAppStep (buildAppStep labels steps)

/-- Claim-side match-expression semantics for C3, amended: In matches iff the
key exists and its value is listed; NotIn matches iff the key is absent or
its value is not listed; any other operator matches iff the key is absent
(the code only rejects unknown operators when the key is present). -/
def matchExpressionAmended (labels : List (String × String))
    (m : ApplicationMatchExpression) : Bool :=
  if m.operator = "In" then
    match lookupMap labels m.key with
    | some val => m.values.contains val
    | none => false
  else if m.operator = "NotIn" then
    match lookupMap labels m.key with
    | some val => !(m.values.contains val)
    | none => true
  else (lookupMap labels m.key).isNone

/-! ## Per-application rollout status (`updateApplicationSetApplicationStatus`) -/

/-!
The per-application body of `updateApplicationSetApplicationStatus`
(lines 1130-1205) is embedded as six stage functions, one per statement
block of the Go loop, composed in source order by
`updateApplicationSetApplicationStatusApp`.  Shared parameters: `enabled` is
`progressiveSyncsRollingSyncStrategyEnabled`, `stepStr` the decimal
rendering of `getAppStep` for this application (the Go code recomputes the
identical value at every assignment), `now` the reconcile timestamp,
`recorded` the entry located by `findApplicationStatusIndex` (`none` when
the index is -1), and `obs` the runtime observations.
-/

/-- Lines 1133-1151. -/
def rolloutStageRecorded (stepStr : String) (now : Int) (appName : String)
    (recorded : Option AppStatus) (obs : Observation) : AppStatus :=
  match recorded with
  | none =>
      { application := appName
        lastTransitionTime := some now
        message := "No Application status found, defaulting status to Waiting."
        status := "Waiting"
        step := stepStr
        targetRevisions := none }
  | some r =>
      if r.targetRevisions ≠ some obs.revisions then
        { r with message := "Application has pending changes, setting status to Waiting." }
      else r

/-- Lines 1153-1158. -/
def rolloutStageRevisions (stepStr : String) (now : Int) (obs : Observation)
    (cur : AppStatus) : AppStatus :=
  if cur.targetRevisions ≠ some obs.revisions then
    { cur with
        targetRevisions := some obs.revisions
        status := "Waiting"
        lastTransitionTime := some now
        step := stepStr }
  else cur

/-- Lines 1160-1171. -/
def rolloutStageOutdated (enabled : Bool) (stepStr : String) (now : Int)
    (obs : Observation) (cur : AppStatus) : AppStatus :=
  if (enabled && obs.sync = "OutOfSync") && cur.status ≠ "Waiting" && cur.status ≠ "Pending" then
    { cur with
        lastTransitionTime := some now
        status := "Waiting"
        message := "Application has pending changes, setting status to Waiting."
        step := stepStr }
  else cur

/-- Lines 1173-1187. -/
def rolloutStagePending (enabled : Bool) (stepStr : String) (now : Int)
    (obs : Observation) (cur : AppStatus) : AppStatus :=
  if cur.status = "Pending" then
    if !(enabled && obs.sync = "OutOfSync") && obs.phase = "Succeeded" then
      { cur with
          lastTransitionTime := some now
          status := "Progressing"
          message := "Application resource completed a sync successfully, updating status from Pending to Progressing."
          step := stepStr }
    else if obs.phase = "Running" || obs.health = "Progressing" then
      { cur with
          lastTransitionTime := some now
          status := "Progressing"
          message := "Application resource became Progressing, updating status from Pending to Progressing."
          step := stepStr }
    else cur
  else cur

/-- Lines 1189-1195. -/
def rolloutStageWaitingHealthy (stepStr : String) (now : Int)
    (obs : Observation) (cur : AppStatus) : AppStatus :=
  if cur.status = "Waiting" && isApplicationHealthy obs then
    { cur with
        lastTransitionTime := some now
        status := obs.health
        message := "Application resource is already Healthy, updating status from Waiting to Healthy."
        step := stepStr }
  else cur

/-- Lines 1197-1203. -/
def rolloutStageProgressingHealthy (stepStr : String) (now : Int)
    (obs : Observation) (cur : AppStatus) : AppStatus :=
  if cur.status = "Progressing" && isApplicationHealthy obs then
    { cur with
        lastTransitionTime := some now
        status := obs.health
        message := "Application resource became Healthy, updating status from Progressing to Healthy."
        step := stepStr }
  else cur

def updateApplicationSetApplicationStatusApp (enabled : Bool) (stepStr : String)
    (now : Int) (appName : String) (recorded : Option AppStatus)
    (obs : Observation) : AppStatus :=
  rolloutStageProgressingHealthy stepStr now obs
    (rolloutStageWaitingHealthy stepStr now obs
      (rolloutStagePending enabled stepStr now obs
        (rolloutStageOutdated enabled stepStr now obs
          (rolloutStageRevisions stepStr now obs
            (rolloutStageRecorded stepStr now appName recorded obs)))))

/-- Claim-side state machine for C1, amended: the rule table of §4.4.2
applied to the status field top-down, each applicable rule updating the
status seen by the later rules (cascading), with OutOfSync only consulted
when RollingSync progressive sync is enabled. -/
def rolloutRulesStatus (enabled : Bool) (recorded : Option AppStatus)
    (obs : Observation) : String :=
  let s1 :=
    match recorded with
    | none => "Waiting"
    | some r => if r.targetRevisions ≠ some obs.revisions then "Waiting" else r.status
  let s2 :=
    if enabled && obs.sync = "OutOfSync" && s1 ≠ "Waiting" && s1 ≠ "Pending" then "Waiting"
    else s1
  let s3 :=
    if s2 = "Pending" &&
        ((!(enabled && obs.sync = "OutOfSync") && obs.phase = "Succeeded") ||
          (obs.phase = "Running" || obs.health = "Progressing")) then "Progressing"
    else s2
  let s4 :=
    if (s3 = "Waiting" || s3 = "Progressing") && isApplicationHealthy obs then "Healthy"
    else s3
  s4

/-! ## Waiting to Pending promotion (`updateApplicationSetApplicationStatusProgress`) -/

/-- Digit run parser used by the `strconv.Atoi` model: `none` on an empty or
non-digit input. -/
def digitsToNat : List Char → Option Nat
  | [] => none
  | cs => cs.foldl (fun acc c => acc.bind (fun n =>
      if c.isDigit then some (n * 10 + (c.toNat - '0'.toNat)) else none)) (some 0)

/-- Model of `strconv.Atoi`: optional sign followed by decimal digits. -/
def atoiModel (s : String) : Option Int :=
  match s.data with
  | '-' :: rest => (digitsToNat rest).map (fun n => -(n : Int))
  | '+' :: rest => (digitsToNat rest).map (fun n => (n : Int))
  | l => (digitsToNat l).map (fun n => (n : Int))

/-- Model of the percentage branch of `intstr.getIntOrPercentValueSafely`: a
string value must end in a percent sign and parse as an integer. -/
def percentValue (s : String) : Option Int :=
  match s.data.reverse with
  | '%' :: rest => atoiModel (String.mk rest.reverse)
  | _ => none

/-- Model of `intstr.GetScaledValueFromIntOrPercent` with `roundUp=false`
(k8s apimachinery, external to the repo): an integer passes through, a valid
percentage is scaled by `total` and rounded down (`math.Floor`), anything
else is an error, modelled as `none`. -/
def getScaledValueFromIntOrPercent (v : IntOrStringV) (total : Int) : Option Int :=
  match v with
  | .int n => some n
  | .str s => (percentValue s).map (fun p => Int.fdiv (p * total) 100)

/-- The `maxUpdate` resolution of
`updateApplicationSetApplicationStatusProgress` (lines 1246-1255): the scaled
value, defaulting to 0 on a parse error (which is only logged), then raised
to 1 when the value is a string other than the literal 0 percent and the
scaled value is below 1. -/
def resolveMaxUpdate (mu : IntOrStringV) (total : Int) : Int :=
  let maxUpdateVal := (getScaledValueFromIntOrPercent mu total).getD 0
  match mu with
  | .int _ => maxUpdateVal
  | .str s => if s ≠ "0%" && maxUpdateVal < 1 then 1 else maxUpdateVal

/-- Go map indexing `appStepMap[name]` with the zero-value default 0 for
absent keys, as used on lines 1231-1259. -/
def stepIdxOf (stepMap : String → Option Nat) (name : String) : Nat :=
  (stepMap name).getD 0

/-- Number of status entries attributed to step `i` (the `totalCountMap` of
line 1231). -/
def countTotalStep (stepMap : String → Option Nat) (i : Nat)
    (l : List AppStatus) : Int :=
  (l.countP (fun a => stepIdxOf stepMap a.application = i) : Int)

/-- Number of Pending or Progressing status entries attributed to step `i`
(the `updateCountMap` of line 1234). -/
def countPPStep (stepMap : String → Option Nat) (i : Nat)
    (l : List AppStatus) : Int :=
  (l.countP (fun a => stepIdxOf stepMap a.application = i &&
    (a.status = "Pending" || a.status = "Progressing")) : Int)

/-- The promotion loop of `updateApplicationSetApplicationStatusProgress`
(lines 1238-1274): walk the recorded statuses threading the per-step
in-flight counters `uc`; a Waiting entry whose application is sync-enabled
and whose step is below its resolved `maxUpdate` cap is promoted to Pending
and its counter incremented. -/
def updateStatusProgressGo (steps : List ApplicationSetRolloutStep)
    (totals : Nat → Int) (syncMap : String → Bool) (stepMap : String → Option Nat)
    (now : Int) : (Nat → Int) → List AppStatus → List AppStatus
  | _, [] => []
  | uc, a :: rest =>
      let i := stepIdxOf stepMap a.application
      let maxUpdateAllowed :=
        match (steps.get? i).bind (fun st => st.maxUpdate) with
        | none => true
        | some mu => !(uc i ≥ resolveMaxUpdate mu (totals i))
      if a.status = "Waiting" && syncMap a.application && maxUpdateAllowed then
        { a with
            lastTransitionTime := some now
            status := "Pending"
            message := "Application moved to Pending status, watching for the Application resource to start Progressing."
            step := toString (getAppStep (stepMap a.application)) } ::
          updateStatusProgressGo steps totals syncMap stepMap now
            (fun j => if j = i then uc j + 1 else uc j) rest
      else a :: updateStatusProgressGo steps totals syncMap stepMap now uc rest

/-- `updateApplicationSetApplicationStatusProgress` (lines 1217-1283) in the
RollingSync-enabled branch: counters are seeded with the Pending/Progressing
counts over the whole recorded list, then the promotion loop runs. -/
def updateApplicationSetApplicationStatusProgress
    (steps : List ApplicationSetRolloutStep) (syncMap : String → Bool)
    (stepMap : String → Option Nat) (now : Int)
    (statuses : List AppStatus) : List AppStatus :=
  updateStatusProgressGo steps (fun i => countTotalStep stepMap i statuses)
    syncMap stepMap now (fun i => countPPStep stepMap i statuses) statuses

/-- Claim-side `maxUpdate` resolution for C2, as the claim words it: an
integer is used directly, a percentage is the rounded-down fraction of the
step total except that a non-zero percentage resolving to 0 resolves to 1,
an absent or invalid value means no cap. -/
def maxUpdateResolvedClaim (mu : Option IntOrStringV) (total : Int) : Option Int :=
  match mu with
  | none => none
  | some (.int n) => some n
  | some (.str s) =>
      match percentValue s with
      | none => none
      | some p =>
          let v := Int.fdiv (p * total) 100
          some (if p ≠ 0 && v = 0 then 1 else v)

/-! ## Reverse deletion (`performReverseDeletion`) and the teardown branch -/

/-- Bool comparison of characters by code point, for the Go string order. -/
def charListLe : List Char → List Char → Bool
  | [], _ => true
  | _ :: _, [] => false
  | a :: as, b :: bs =>
    if a.toNat < b.toNat then true
    else if b.toNat < a.toNat then false
    else charListLe as bs

/-- Go string order (byte-wise lexicographic), modelled over code points. -/
def stringLe (a b : String) : Bool := charListLe a.data b.data

/-- Insertion into a sorted list, the building block of the `sort.Slice`
model. -/
def insertLe {α : Type} (le : α → α → Bool) (a : α) : List α → List α
  | [] => [a]
  | b :: bs => if le a b then a :: b :: bs else b :: insertLe le a bs

/-- Model of `sort.Slice`: insertion sort by the given Bool order (the claims
only concern sortedness and membership, which any correct sort satisfies). -/
def sortLe {α : Type} (le : α → α → Bool) (l : List α) : List α :=
  l.foldr (insertLe le) []

/-- The store of live child Applications during teardown, keyed by name:
`none` is NotFound, `some none` a live object with nil deletion timestamp,
`some (some age)` a live object marked for deletion `age` seconds ago. -/
def DeletionStore : Type := String → Option (Option Int)

/-- Outcome of one `performReverseDeletion` pass. -/
inductive ReversePassResult where
  | fatal (app : String)
  | deleteInitiated (app : String)
  | allDone
deriving DecidableEq, Repr

/-- Lines 400-407: each `appStepMap` entry `(name, step)` becomes a
`deleteInOrder{name, stepLength - step - 1}` record and the records are
sorted ascending by that transformed step, so original steps descend. -/
def reverseDeleteOrder (stepLength : Nat) (entries : List (String × Nat)) :
    List (String × Int) :=
  sortLe (fun a b => a.2 ≤ b.2)
    (entries.map (fun e => (e.1, (stepLength : Int) - (e.2 : Int) - 1)))

/-- The walk of lines 409-433: skip children whose Get reports NotFound; a
child marked for deletion for more than 2 minutes (120 seconds) is a fatal
error with no requeue; otherwise Delete is issued for the child (also when
it is already marked but young) and the pass stops with the 10 second
requeue; an exhausted walk reports completion. -/
def performReverseDeletionGo : List (String × Int) → DeletionStore → ReversePassResult
  | [], _ => .allDone
  | e :: rest, store =>
      match store e.1 with
      | none => performReverseDeletionGo rest store
      | some (some age) =>
          if age > 120 then .fatal e.1 else .deleteInitiated e.1
      | some none => .deleteInitiated e.1

/-- `performReverseDeletion` (lines 387-434) as a pure pass over the step
map entries and the store. -/
def performReverseDeletion (stepLength : Nat) (entries : List (String × Nat))
    (store : DeletionStore) : ReversePassResult :=
  performReverseDeletionGo (reverseDeleteOrder stepLength entries) store

/-- Requeue seconds returned by the pass: 10 after initiating a deletion,
otherwise 0. -/
def passRequeue : ReversePassResult → Int
  | .deleteInitiated _ => 10
  | _ => 0

/-- Names deleted during the pass (at most one per pass). -/
def passDeletions : ReversePassResult → List String
  | .deleteInitiated a => [a]
  | _ => []

/-- The `appStepMap` computed by `buildAppDependencyList` over the current
applications, as an association list in application order: applications
selected by no step are absent. -/
def appStepEntries (apps : List (String × List (String × String)))
    (steps : List ApplicationSetRolloutStep) : List (String × Nat) :=
  apps.filterMap (fun a => (buildAppStep a.2 steps).map (fun i => (a.1, i)))

/-- Outcome of the teardown branch of `Reconcile` (lines 139-168). -/
structure DeletionBranchResult where
  ownerRefsRemoved : Bool
  deleted : List String
  finalizerRemoved : Bool
  requeueAfter : Int
  isError : Bool
deriving DecidableEq, Repr

/-- The teardown branch of `Reconcile` (lines 139-168): when the policy
forbids delete, owner references are removed from all current children; when
Reverse deletion order is configured the reverse pass runs, a fatal pass
returning its error and a positive requeue returning early; in all remaining
paths the resources finalizer is removed from the parent. -/
def reconcileDeletionBranch (allowDelete reverse : Bool) (stepLength : Nat)
    (entries : List (String × Nat)) (store : DeletionStore) : DeletionBranchResult :=
  let ownerRefsRemoved := !allowDelete
  if reverse then
    match performReverseDeletion stepLength entries store with
    | .fatal _ =>
        { ownerRefsRemoved := ownerRefsRemoved, deleted := [],
          finalizerRemoved := false, requeueAfter := 0, isError := true }
    | .deleteInitiated a =>
        { ownerRefsRemoved := ownerRefsRemoved, deleted := [a],
          finalizerRemoved := false, requeueAfter := 10, isError := false }
    | .allDone =>
        { ownerRefsRemoved := ownerRefsRemoved, deleted := [],
          finalizerRemoved := true, requeueAfter := 0, isError := false }
  else
    { ownerRefsRemoved := ownerRefsRemoved, deleted := [],
      finalizerRemoved := true, requeueAfter := 0, isError := false }

/-! ## Condition model (`setApplicationSetStatusCondition`) -/

/-- The four ApplicationSet condition types. -/
inductive CondType where
  | errorOccurred
  | parametersGenerated
  | resourcesUpToDate
  | rolloutProgressing
deriving DecidableEq, Repr

/-- Condition status: True, False or Unknown. -/
inductive CStatus where
  | ctrue
  | cfalse
  | cunknown
deriving DecidableEq, Repr

/-- One ApplicationSet condition record, restricted to the four fields the
controller compares: type, status, reason and message. -/
structure Condition where
  ctype : CondType
  status : CStatus
  reason : String
  message : String
deriving DecidableEq, Repr

/-- `getParametersGeneratedCondition` (lines 436-454). -/
def getParametersGeneratedCondition (parametersGenerated : Bool)
    (message : String) : Condition :=
  if parametersGenerated then
    { ctype := .parametersGenerated, status := .ctrue,
      reason := "ParametersGenerated",
      message := "Successfully generated parameters for all Applications" }
  else
    { ctype := .parametersGenerated, status := .cfalse,
      reason := "ErrorOccurred", message := message }

/-- The `newConditions` list built by `setApplicationSetStatusCondition`
(lines 466-501): the supplied condition, the ParametersGenerated condition
unless that was the supplied type, and the paired condition forced by a True
ResourcesUpToDate or a True ErrorOccurred. -/
def newConditionsFor (condition : Condition) (parametersGenerated : Bool) :
    List Condition :=
  let l1 := [condition]
  let l2 :=
    if condition.ctype ≠ .parametersGenerated then
      l1 ++ [getParametersGeneratedCondition parametersGenerated condition.message]
    else l1
  if condition.ctype = .resourcesUpToDate && condition.status = .ctrue then
    l2 ++ [{ ctype := .errorOccurred, status := .cfalse,
             reason := condition.reason, message := condition.message }]
  else if condition.ctype = .errorOccurred && condition.status = .ctrue then
    l2 ++ [{ ctype := .resourcesUpToDate, status := .cfalse,
             reason := "ErrorOccurred", message := condition.message }]
  else l2

/-- The `evaluatedTypes` map after the mutations of lines 458-507 (all four
types are always keys, so only the Bool value matters): ParametersGenerated
starts evaluated, the supplied type becomes evaluated, RolloutProgressing is
evaluated whenever the strategy is not RollingSync, a True ResourcesUpToDate
evaluates ErrorOccurred and a True ErrorOccurred evaluates ResourcesUpToDate,
and a RolloutProgressing condition under a non-RollingSync strategy is
finally marked not evaluated. -/
def evaluatedTypesFor (rolling : Bool) (condition : Condition) :
    CondType → Bool := fun t =>
  let v0 := t = CondType.parametersGenerated
  let v1 := if t = condition.ctype then true else v0
  let v2 := if !rolling && t = CondType.rolloutProgressing then true else v1
  let v3 :=
    if condition.ctype = CondType.resourcesUpToDate && condition.status = CStatus.ctrue &&
        t = CondType.errorOccurred then true else v2
  let v4 :=
    if condition.ctype = CondType.errorOccurred && condition.status = CStatus.ctrue &&
        t = CondType.resourcesUpToDate then true else v3
  if condition.ctype = CondType.rolloutProgressing && !rolling &&
      t = CondType.rolloutProgressing then false else v4

/-- Modelled from the spec: `ApplicationSetStatus.SetConditions` lives in
`pkg/apis/application/v1alpha1`, which is not part of the sources; per §4.5
the routine keeps the evaluated condition types in sync with the supplied
conditions — a type evaluated in this update is replaced by the supplied
conditions of that type (none means removal), and conditions of types not
evaluated in this update are preserved. -/
def setConditionsModel (old newConds : List Condition)
    (evaluated : CondType → Bool) : List Condition :=
  newConds.filter (fun c => evaluated c.ctype) ++
    old.filter (fun c => !evaluated c.ctype)

/-- The condition-set computation of `setApplicationSetStatusCondition`
(lines 456-511): build `newConditions` and `evaluatedTypes` from the supplied
condition and flag, then apply `SetConditions` to the prior set. -/
def setApplicationSetStatusCondition (rolling : Bool) (old : List Condition)
    (condition : Condition) (parametersGenerated : Bool) : List Condition :=
  setConditionsModel old (newConditionsFor condition parametersGenerated)
    (evaluatedTypesFor rolling condition)

/-- The change detection of lines 514-523: the new set differs from the prior
set iff the lengths differ or some position differs in type, reason, status
or message. -/
def conditionsDiffer (newConds old : List Condition) : Bool :=
  newConds.length ≠ old.length ||
    (newConds.zip old).any (fun p =>
      p.1.ctype ≠ p.2.ctype || p.1.reason ≠ p.2.reason ||
        p.1.status ≠ p.2.status || p.1.message ≠ p.2.message)

/-- Whether `setApplicationSetStatusCondition` performs a store write
(lines 525-527: the get/update is skipped when nothing changed). -/
def setApplicationSetStatusConditionWrites (rolling : Bool) (old : List Condition)
    (condition : Condition) (parametersGenerated : Bool) : Bool :=
  conditionsDiffer (setApplicationSetStatusCondition rolling old condition parametersGenerated) old

/-! ## Error collection loops (`createOrUpdateInCluster`, `deleteInCluster`) -/

/-- The error collection of the `createOrUpdateInCluster` loop
(lines 653-758), abstracted over the per-child outcome of
`utils.CreateOrUpdate`: the pair of the returned `firstError` (line 741
records an error only when none is recorded yet, then continues) and the
children processed by the loop. -/
def createOrUpdateInClusterErrors (results : List (String × Option String)) :
    Option String × List String :=
  results.foldl
    (fun acc r =>
      match r.2 with
      | some e => ((if acc.1 = none then some e else acc.1), acc.2 ++ [r.1])
      | none => (acc.1, acc.2 ++ [r.1]))
    (none, [])

/-- The error collection of the `deleteInCluster` loop (lines 818-846),
abstracted over per-child outcomes: each current child carries whether it is
in the desired set and the error of its fixup-and-delete attempt; the fold
returns the `firstError` as the code computes it (lines 828 and 837 assign
`firstError = err` only when `firstError != nil`) together with the names
successfully deleted.  The loop continues past failing children. -/
def deleteInClusterErrors (current : List (String × Bool × Option String)) :
    Option String × List String :=
  current.foldl
    (fun acc a =>
      if a.2.1 then acc
      else
        match a.2.2 with
        | some e => ((if acc.1 ≠ none then some e else acc.1), acc.2)
        | none => (acc.1, acc.2 ++ [a.1]))
    (none, [])

/-! ## Parent update predicate (`shouldRequeueForApplicationSet`) -/

/-- The refresh annotation key (`common.AnnotationApplicationSetRefresh`). -/
def applicationSetRefreshKey : String := "argocd.argoproj.io/application-set-refresh"

/-- Extensional Bool equality of two Go string maps represented as
association lists, modelling `cmp.Equal` with `cmpopts.EquateEmpty`: equal
iff every key of either map resolves identically in both. -/
def mapsEqual (a b : List (String × String)) : Bool :=
  (a.map Prod.fst ++ b.map Prod.fst).all (fun k => lookupMap a k = lookupMap b k)

/-- Key presence test (`_, ok := m[k]`). -/
def hasKey (m : List (String × String)) (k : String) : Bool :=
  (lookupMap m k).isSome

/-- The fields of an ApplicationSet inspected by the parent update-event
predicate; the spec is abstracted to a comparable token since only its
equality is consulted. -/
structure AppSetView where
  specV : Nat
  labels : List (String × String)
  annotations : List (String × String)
  finalizers : List String
  deletionTimestamp : Option Int
  appStatuses : List AppStatus
deriving Repr

/-- `shouldRequeueForApplicationSet` (lines 1693-1730): with progressive
sync, a changed per-application status list requeues; a changed spec, label
map, finalizer list or deletion timestamp requeues; a changed annotation map
requeues unless the refresh annotation was present before and absent after,
which suppresses the requeue; otherwise no requeue. -/
def shouldRequeueForApplicationSet (enableProgressiveSyncs : Bool)
    (o n : AppSetView) : Bool :=
  if enableProgressiveSyncs && o.appStatuses ≠ n.appStatuses then true
  else if o.specV ≠ n.specV || !mapsEqual o.labels n.labels ||
      o.finalizers ≠ n.finalizers || o.deletionTimestamp ≠ n.deletionTimestamp then true
  else if !mapsEqual o.annotations n.annotations then
    if hasKey o.annotations applicationSetRefreshKey &&
        !hasKey n.annotations applicationSetRefreshKey then false
    else true
  else false

/-- Claim-side predicate for C8: the annotation change consists solely of
removing the refresh annotation, i.e. the refresh key was present before and
absent after, and the maps agree once the refresh key is erased from the old
map. -/
def annotationsSolelyRefreshRemoved (o n : List (String × String)) : Bool :=
  hasKey o applicationSetRefreshKey && !hasKey n applicationSetRefreshKey &&
    mapsEqual (o.filter (fun p => p.1 ≠ applicationSetRefreshKey)) n

/-- Propositional map agreement used to state C8. -/
def mapsAgree (a b : List (String × String)) : Prop :=
  ∀ k, lookupMap a k = lookupMap b k

/-! ## Per-application status writer (`setAppSetApplicationStatus`) -/

/-- `findApplicationStatusIndex` (lines 1339-1346) as a first-match lookup. -/
def findAppStatus (statuses : List AppStatus) (application : String) :
    Option AppStatus :=
  statuses.find? (fun s => s.application = application)

/-- `setAppSetApplicationStatus` (lines 1432-1488) as a pure function from
the recorded and supplied lists to the optional written list: the write is
skipped (`none`) when the lengths agree and every supplied entry matches the
first recorded entry of its application name on Message, Status and Step;
otherwise the supplied list is persisted sorted ascending by application
name. -/
def setAppSetApplicationStatus (recorded supplied : List AppStatus) :
    Option (List AppStatus) :=
  let needToUpdateStatus :=
    supplied.length ≠ recorded.length ||
      supplied.any (fun e =>
        match findAppStatus recorded e.application with
        | none => true
        | some r => r.message ≠ e.message || r.status ≠ e.status || r.step ≠ e.step)
  if needToUpdateStatus then
    some (sortLe (fun a b => stringLe a.application b.application) supplied)
  else none

/-! ## Helper lemmas for the sort model and lookups -/

theorem mem_insertLe {α : Type} (le : α → α → Bool) (a x : α) :
    ∀ l : List α, x ∈ insertLe le a l ↔ x = a ∨ x ∈ l := by
  intro l
  induction l with
  | nil => simp [insertLe]
  | cons b bs ih =>
      by_cases h : le a b
      · simp [insertLe, h]
      · simp [insertLe, h, ih]
        tauto

theorem mem_sortLe {α : Type} (le : α → α → Bool) (x : α) :
    ∀ l : List α, x ∈ sortLe le l ↔ x ∈ l := by
  intro l
  induction l with
  | nil => simp [sortLe]
  | cons b bs ih =>
      simp only [sortLe, List.foldr] at *
      rw [mem_insertLe]
      simp [ih]

theorem pairwise_insertLe {α : Type} (le : α → α → Bool)
    (htot : ∀ a b, le a b || le b a)
    (htrans : ∀ a b c, le a b → le b c → le a c) (a : α) :
    ∀ l : List α, l.Pairwise (fun x y => le x y = true) →
      (insertLe le a l).Pairwise (fun x y => le x y = true) := by
  intro l
  induction l with
  | nil => intro _; simp [insertLe]
  | cons b bs ih =>
      intro hp
      rcases List.pairwise_cons.mp hp with ⟨hb, hbs⟩
      by_cases h : le a b
      · simp only [insertLe, h, if_true]
        refine List.pairwise_cons.mpr ⟨?_, hp⟩
        intro y hy
        rcases List.mem_cons.mp hy with rfl | hy2
        · exact h
        · exact htrans a b y h (hb y hy2)
      · simp only [insertLe, h, if_false]
        refine List.pairwise_cons.mpr ⟨?_, ih hbs⟩
        intro y hy
        rcases (mem_insertLe le a y bs).mp hy with h1 | hy2
        · rw [h1]
          have := htot a b
          simp [h] at this
          exact this
        · exact hb y hy2

theorem pairwise_sortLe {α : Type} (le : α → α → Bool)
    (htot : ∀ a b, le a b || le b a)
    (htrans : ∀ a b c, le a b → le b c → le a c) :
    ∀ l : List α, (sortLe le l).Pairwise (fun x y => le x y = true) := by
  intro l
  induction l with
  | nil => simp [sortLe]
  | cons b bs ih =>
      simp only [sortLe, List.foldr] at *
      exact pairwise_insertLe le htot htrans b _ ih

theorem charListLe_total : ∀ as bs, charListLe as bs || charListLe bs as := by
  intro as
  induction as with
  | nil => intro bs; simp [charListLe]
  | cons a as ih =>
      intro bs
      cases bs with
      | nil => simp [charListLe]
      | cons b bs =>
          simp only [charListLe]
          by_cases h1 : a.toNat < b.toNat
          · simp [h1]
          · by_cases h2 : b.toNat < a.toNat
            · simp [h1, h2]
            · simp [h1, h2]
              have := ih bs
              simpa using this

theorem charListLe_trans : ∀ as bs cs, charListLe as bs → charListLe bs cs →
    charListLe as cs := by
  intro as
  induction as with
  | nil => intro bs cs _ _; simp [charListLe]
  | cons a as ih =>
      intro bs cs hab hbc
      cases bs with
      | nil => simp [charListLe] at hab
      | cons b bs =>
          cases cs with
          | nil => simp [charListLe] at hbc
          | cons c cs =>
              simp only [charListLe] at hab hbc ⊢
              by_cases h1 : a.toNat < b.toNat
              · by_cases h2 : b.toNat < c.toNat
                · have h3 : a.toNat < c.toNat := by omega
                  simp [h3]
                · by_cases h4 : c.toNat < b.toNat
                  · simp [h2, h4] at hbc
                  · have h3 : a.toNat < c.toNat := by omega
                    simp [h3]
              · by_cases h5 : b.toNat < a.toNat
                · simp [h1, h5] at hab
                · by_cases h2 : b.toNat < c.toNat
                  · have h3 : a.toNat < c.toNat := by omega
                    simp [h3]
                  · by_cases h4 : c.toNat < b.toNat
                    · simp [h2, h4] at hbc
                    · have h3 : ¬ a.toNat < c.toNat := by omega
                      have h6 : ¬ c.toNat < a.toNat := by omega
                      simp [h1, h5] at hab
                      simp [h2, h4] at hbc
                      simp [h3, h6]
                      exact ih bs cs hab hbc
theorem stringLe_total : ∀ a b : String, stringLe a b || stringLe b a := by
  intro a b; exact charListLe_total a.data b.data

theorem stringLe_trans : ∀ a b c : String, stringLe a b → stringLe b c → stringLe a c := by
  intro a b c; exact charListLe_trans a.data b.data c.data

theorem findAppStatus_nodup (recorded : List AppStatus) (r : AppStatus)
    (hnodup : (recorded.map AppStatus.application).Nodup)
    (hmem : r ∈ recorded) : findAppStatus recorded r.application = some r := by
  induction recorded with
  | nil => cases hmem
  | cons h t ih =>
      rcases List.mem_cons.mp hmem with rfl | hmem2
      · simp [findAppStatus]
      · have hne : h.application ≠ r.application := by
          intro he
          have : r.application ∈ t.map AppStatus.application :=
            List.mem_map.mpr ⟨r, hmem2, rfl⟩
          rw [← he] at this
          exact (List.nodup_cons.mp hnodup).1 this
        simp only [findAppStatus, List.find?]
        have : (decide (h.application = r.application)) = false := by
          simpa using hne
        rw [this]
        exact ih (List.nodup_cons.mp hnodup).2 hmem2


/-! ## Theorems: C3 -/

/-- Helper: once the accumulator is set, the step loop never changes it. -/
theorem buildAppStepGo_some (labels : List (String × String)) (j : Nat) :
    ∀ (steps : List ApplicationSetRolloutStep) (i : Nat),
      buildAppStepGo labels i (some j) steps = some j := by
  intro steps
  induction steps with
  | nil => intro i; rfl
  | cons st rest ih =>
      intro i
      simp [buildAppStepGo, ih]

/-- Helper: per-expression equivalence between the code path and the amended
claim-side semantics. -/
theorem stepSelected_eq_amended (labels : List (String × String))
    (st : ApplicationSetRolloutStep) :
    stepSelected labels st = st.matchExpressions.all (matchExpressionAmended labels) := by
  unfold stepSelected
  congr 1
  funext m
  unfold matchExpressionAmended labelMatchedExpression
  cases h : lookupMap labels m.key with
  | none => by_cases hIn : m.operator = "In" <;> by_cases hNot : m.operator = "NotIn" <;>
      simp_all
  | some val => by_cases hIn : m.operator = "In" <;> by_cases hNot : m.operator = "NotIn" <;>
      by_cases hc : m.values.contains val <;> simp_all

/-- Helper: the step loop computes the index of the first selecting step. -/
theorem buildAppStep_eq_findIdx (labels : List (String × String)) :
    ∀ (steps : List ApplicationSetRolloutStep),
      buildAppStep labels steps = steps.findIdx? (stepSelected labels) := by
  have go : ∀ (steps : List ApplicationSetRolloutStep) (i : Nat),
      buildAppStepGo labels i none steps = (steps.findIdx? (stepSelected labels) i) := by
    intro steps
    induction steps with
    | nil => intro i; rfl
    | cons st rest ih =>
        intro i
        by_cases hs : stepSelected labels st
        · simp [buildAppStepGo, List.findIdx?, hs, buildAppStepGo_some]
        · simp [buildAppStepGo, List.findIdx?, hs, ih]
  intro steps
  exact go steps 0

/-- Claim C3 (amended): the recorded step of an application is determined by
the first step, in order, all of whose match expressions match under the
amended semantics (In: key present with listed value; NotIn: key absent or
value not listed; other operators: key absent), as a 1-based index, and an
application matched by no step gets step -1.  In particular every
application is assigned at most one step. -/
theorem appStep_first_matching_step (labels : List (String × String))
    (steps : List ApplicationSetRolloutStep) :
    appStepNumber labels steps =
      match steps.findIdx? (fun st => st.matchExpressions.all (matchExpressionAmended labels)) with
      | some i => (i : Int) + 1
      | none => -1 := by
  unfold appStepNumber getAppStep
  rw [buildAppStep_eq_findIdx]
  have : steps.findIdx? (stepSelected labels) =
      steps.findIdx? (fun st => st.matchExpressions.all (matchExpressionAmended labels)) := by
    congr 1
    funext st
    exact stepSelected_eq_amended labels st
  rw [this]

/-- Claim C3 counterexample: with an empty label map and a single step whose
only match expression uses the unrecognized operator Exists, the claim says
the expression is non-matching and the step must be -1, but the code assigns
step 1 (an unknown operator with an absent key is skipped, so the step
selects the application). -/
theorem appStep_invalid_operator_absent_key :
    appStepNumber []
        [{ matchExpressions := [{ key := "k", operator := "Exists", values := [] }],
           maxUpdate := none }] = 1 ∧
    appStepNumber []
        [{ matchExpressions := [{ key := "k", operator := "Exists", values := [] }],
           maxUpdate := none }] ≠ -1 := by
  constructor
  · rfl
  · decide

/-! ## Theorems: C1 -/

theorem stageRevisions_status (stepStr : String) (now : Int) (obs : Observation)
    (cur : AppStatus) :
    (rolloutStageRevisions stepStr now obs cur).status =
      if cur.targetRevisions ≠ some obs.revisions then "Waiting" else cur.status := by
  unfold rolloutStageRevisions
  split_ifs <;> rfl

theorem stageOutdated_status (enabled : Bool) (stepStr : String) (now : Int)
    (obs : Observation) (cur : AppStatus) :
    (rolloutStageOutdated enabled stepStr now obs cur).status =
      if (enabled && obs.sync = "OutOfSync") && cur.status ≠ "Waiting" && cur.status ≠ "Pending"
      then "Waiting" else cur.status := by
  unfold rolloutStageOutdated
  split_ifs <;> rfl

theorem stagePending_status (enabled : Bool) (stepStr : String) (now : Int)
    (obs : Observation) (cur : AppStatus) :
    (rolloutStagePending enabled stepStr now obs cur).status =
      if cur.status = "Pending" &&
          ((!(enabled && obs.sync = "OutOfSync") && obs.phase = "Succeeded") ||
            (obs.phase = "Running" || obs.health = "Progressing"))
      then "Progressing" else cur.status := by
  unfold rolloutStagePending
  split_ifs with h1 h2 h3 <;> simp_all

theorem stageHealthy_status (stepStr : String) (now : Int) (obs : Observation)
    (cur : AppStatus) :
    (rolloutStageProgressingHealthy stepStr now obs
        (rolloutStageWaitingHealthy stepStr now obs cur)).status =
      if (cur.status = "Waiting" || cur.status = "Progressing") && isApplicationHealthy obs
      then "Healthy" else cur.status := by
  have hh : isApplicationHealthy obs = true → obs.health = "Healthy" := by
    unfold isApplicationHealthy
    intro h
    simp only [Bool.and_eq_true, decide_eq_true_eq] at h
    exact h.1.1
  unfold rolloutStageWaitingHealthy rolloutStageProgressingHealthy
  by_cases hhl : isApplicationHealthy obs = true
  · have hH := hh hhl
    split_ifs <;> simp_all
  · split_ifs <;> simp_all

/-- Claim C1 (amended): the per-application rollout status update implements
the §4.4.2 rules as a pure function of the recorded entry and the runtime
observations, with the rules evaluated top-down and every applicable rule
applied in turn to the evolving status (cascading), OutOfSync being consulted
only when RollingSync progressive sync is enabled: a missing entry starts at
Waiting, changed target revisions reset to Waiting, OutOfSync resets
non-Waiting non-Pending entries to Waiting, a Pending entry with a succeeded
sync while not OutOfSync, or a running operation or progressing health, moves
to Progressing, and a Waiting or Progressing entry of an app-healthy
application moves to Healthy, later rules seeing the updates of earlier
ones. -/
theorem rolloutStatus_cascade_spec (enabled : Bool) (stepStr : String)
    (now : Int) (appName : String) (recorded : Option AppStatus)
    (obs : Observation) :
    (updateApplicationSetApplicationStatusApp enabled stepStr now appName recorded obs).status
      = rolloutRulesStatus enabled recorded obs := by
  unfold updateApplicationSetApplicationStatusApp rolloutRulesStatus
  rw [stageHealthy_status, stagePending_status, stageOutdated_status, stageRevisions_status]
  cases recorded with
  | none =>
      have h0 : (rolloutStageRecorded stepStr now appName none obs).status = "Waiting" := rfl
      have h1 : (rolloutStageRecorded stepStr now appName none obs).targetRevisions = none := rfl
      simp [h0, h1]
  | some r =>
      have h0 : (rolloutStageRecorded stepStr now appName (some r) obs).status = r.status := by
        simp only [rolloutStageRecorded]
        split_ifs <;> rfl
      have h1 : (rolloutStageRecorded stepStr now appName (some r) obs).targetRevisions =
          r.targetRevisions := by
        simp only [rolloutStageRecorded]
        split_ifs <;> rfl
      rw [h0, h1]

/-- Claim C1 counterexample: an application with no recorded entry whose
runtime observations are already healthy ends the update in Healthy, not in
Waiting as the first-applicable-rule-wins reading of the claim requires. -/
theorem rolloutStatus_fresh_healthy_not_waiting :
    (updateApplicationSetApplicationStatusApp true "1" 0 "a" none
        { health := "Healthy", sync := "Synced", phase := "", revisions := ["r1"] }).status
        = "Healthy" ∧
    (updateApplicationSetApplicationStatusApp true "1" 0 "a" none
        { health := "Healthy", sync := "Synced", phase := "", revisions := ["r1"] }).status
        ≠ "Waiting" := by
  constructor
  · rfl
  · decide

/-! ## Theorems: C10 -/

/-- Claim C10: the per-application status writer skips the store write
exactly when the supplied list has the same length as the recorded list and
every supplied entry has a recorded entry of the same application name with
equal Status, Message and Step (so a change only to TargetRevisions or
LastTransitionTime does not by itself trigger a write), and whenever it does
write, the persisted list is sorted ascending by application name.  The
recorded list is assumed to carry distinct application names, as the writer
itself guarantees for anything it persisted. -/
theorem setAppSetApplicationStatus_skip_and_sort (recorded supplied : List AppStatus)
    (hnodup : (recorded.map AppStatus.application).Nodup) :
    (setAppSetApplicationStatus recorded supplied = none ↔
      (supplied.length = recorded.length ∧
        ∀ e ∈ supplied, ∃ r ∈ recorded, r.application = e.application ∧
          r.status = e.status ∧ r.message = e.message ∧ r.step = e.step)) ∧
    ((setAppSetApplicationStatus recorded supplied).getD []).Pairwise
      (fun x y => stringLe x.application y.application = true) := by
  constructor
  · unfold setAppSetApplicationStatus
    by_cases hcond : (supplied.length ≠ recorded.length ||
        supplied.any (fun e =>
          match findAppStatus recorded e.application with
          | none => true
          | some r => r.message ≠ e.message || r.status ≠ e.status || r.step ≠ e.step)) = true
    · simp only [hcond, if_true]
      constructor
      · intro h; cases h
      · intro ⟨hlen, hall⟩
        exfalso
        simp only [Bool.or_eq_true, List.any_eq_true] at hcond
        rcases hcond with hl | ⟨e, he, hbad⟩
        · simp [hlen] at hl
        · rcases hall e he with ⟨r, hr, hname, hst, hmsg, hstep⟩
          have hfind : findAppStatus recorded e.application = some r := by
            rw [← hname]
            exact findAppStatus_nodup recorded r hnodup hr
          rw [hfind] at hbad
          simp [hst, hmsg, hstep] at hbad
    · simp only [hcond, if_false]
      simp only [Bool.or_eq_true, List.any_eq_true, not_or] at hcond
      obtain ⟨hlen, hany⟩ := hcond
      constructor
      · intro _
        refine ⟨by simpa using hlen, ?_⟩
        intro e he
        by_contra hno
        apply hany
        refine ⟨e, he, ?_⟩
        cases hfind : findAppStatus recorded e.application with
        | none => simp
        | some r =>
            have hrmem : r ∈ recorded := List.mem_of_find?_eq_some hfind
            have hrname : r.application = e.application := by
              have := List.find?_some hfind
              simpa using this
            simp only []
            by_contra hfields
            apply hno
            simp only [Bool.or_eq_true, not_or] at hfields
            refine ⟨r, hrmem, hrname, ?_, ?_, ?_⟩ <;> simp_all
      · intro _; rfl
  · unfold setAppSetApplicationStatus
    by_cases hcond : (supplied.length ≠ recorded.length ||
        supplied.any (fun e =>
          match findAppStatus recorded e.application with
          | none => true
          | some r => r.message ≠ e.message || r.status ≠ e.status || r.step ≠ e.step)) = true
    · simp only [hcond, if_true, Option.getD_some]
      exact pairwise_sortLe _ (fun a b => stringLe_total a.application b.application)
        (fun a b c => stringLe_trans a.application b.application c.application) supplied
    · simp only [hcond, if_false]
      simp

/-- Witness for C10 at a concrete input: a supplied entry that differs from
the recorded one only in TargetRevisions and LastTransitionTime does not
trigger a write. -/
theorem setAppSetApplicationStatus_skip_and_sort_witness :
    setAppSetApplicationStatus
        [{ application := "a", message := "m", status := "Waiting", step := "1",
           lastTransitionTime := none, targetRevisions := some ["r"] }]
        [{ application := "a", message := "m", status := "Waiting", step := "1",
           lastTransitionTime := some 5, targetRevisions := some ["r2"] }] = none :=
  (setAppSetApplicationStatus_skip_and_sort
      [{ application := "a", message := "m", status := "Waiting", step := "1",
         lastTransitionTime := none, targetRevisions := some ["r"] }]
      [{ application := "a", message := "m", status := "Waiting", step := "1",
         lastTransitionTime := some 5, targetRevisions := some ["r2"] }]
      (by decide)).1.mpr (by decide)

/-! ## Theorems: C6 -/

/-- Claim C6 failing input: in the delete loop, the current child c is absent
from the desired set and its deletion fails, yet the loop returns no error —
the guard on lines 828 and 837 reads firstError != nil, so the first error is
never recorded (the spec notes the intended guard is firstError == nil, as
the create-or-update loop line 741 has it).  The loop does keep going: the
sibling d is still deleted.  For contrast, the create-or-update loop returns
the first of two child errors and processes both children. -/
theorem deleteInCluster_first_error_lost :
    deleteInClusterErrors [("c", false, some "boom"), ("d", false, none)] =
      (none, ["d"]) ∧
    createOrUpdateInClusterErrors [("a", some "e1"), ("b", some "e2")] =
      (some "e1", ["a", "b"]) := by
  constructor
  · rfl
  · rfl

/-! ## Theorems: C8 -/

/-- Helper: the Bool map comparison agrees with propositional lookup
agreement on every key. -/
theorem mapsEqual_iff_agree (a b : List (String × String)) :
    mapsEqual a b = true ↔ mapsAgree a b := by
  unfold mapsEqual mapsAgree
  rw [List.all_eq_true]
  constructor
  · intro h k
    by_cases hka : (lookupMap a k).isSome
    · have hk : k ∈ a.map Prod.fst ++ b.map Prod.fst := by
        rcases Option.isSome_iff_exists.mp hka with ⟨v, hv⟩
        unfold lookupMap at hv
        rcases Option.map_eq_some'.mp hv with ⟨p, hp, hpv⟩
        have := List.find?_some hp
        have hmem := List.mem_of_find?_eq_some hp
        apply List.mem_append_left
        exact List.mem_map.mpr ⟨p, hmem, by simpa using this⟩
      simpa using h k hk
    · by_cases hkb : (lookupMap b k).isSome
      · have hk : k ∈ a.map Prod.fst ++ b.map Prod.fst := by
          rcases Option.isSome_iff_exists.mp hkb with ⟨v, hv⟩
          unfold lookupMap at hv
          rcases Option.map_eq_some'.mp hv with ⟨p, hp, hpv⟩
          have := List.find?_some hp
          have hmem := List.mem_of_find?_eq_some hp
          apply List.mem_append_right
          exact List.mem_map.mpr ⟨p, hmem, by simpa using this⟩
        simpa using h k hk
      · rw [Option.not_isSome_iff_eq_none.mp hka, Option.not_isSome_iff_eq_none.mp hkb]
  · intro h k _
    simp [h k]

/-- Claim C8 (amended): the parent update-event predicate returns true iff
the spec, labels, finalizers or deletion timestamp changed (treating empty
and nil as equal), or the annotation map changed while it is not the case
that the refresh annotation was present before and absent after — i.e. any
annotation change made together with removal of the refresh annotation is
also suppressed, not only a change consisting solely of that removal — or,
with progressive sync enabled, the per-application status list changed. -/
theorem shouldRequeueForApplicationSet_characterization
    (enableProgressiveSyncs : Bool) (o n : AppSetView) :
    shouldRequeueForApplicationSet enableProgressiveSyncs o n = true ↔
      ((enableProgressiveSyncs = true ∧ o.appStatuses ≠ n.appStatuses) ∨
        (o.specV ≠ n.specV ∨ ¬mapsAgree o.labels n.labels ∨
          o.finalizers ≠ n.finalizers ∨ o.deletionTimestamp ≠ n.deletionTimestamp) ∨
        (¬mapsAgree o.annotations n.annotations ∧
          ¬(hasKey o.annotations applicationSetRefreshKey = true ∧
            hasKey n.annotations applicationSetRefreshKey = false))) := by
  unfold shouldRequeueForApplicationSet
  rw [← mapsEqual_iff_agree, ← mapsEqual_iff_agree]
  by_cases h1 : enableProgressiveSyncs = true <;>
    by_cases h2 : o.appStatuses = n.appStatuses <;>
    by_cases h3 : o.specV = n.specV <;>
    by_cases h4 : mapsEqual o.labels n.labels = true <;>
    by_cases h5 : o.finalizers = n.finalizers <;>
    by_cases h6 : o.deletionTimestamp = n.deletionTimestamp <;>
    by_cases h7 : mapsEqual o.annotations n.annotations = true <;>
    by_cases h8 : hasKey o.annotations applicationSetRefreshKey = true <;>
    by_cases h9 : hasKey n.annotations applicationSetRefreshKey = true <;>
    simp_all

/-- Claim C8 counterexample: the only difference between the two views is in
the annotations, where the refresh annotation was removed and, at the same
time, the annotation x changed from 1 to 2 — an annotation change that is
not solely the removal of the refresh annotation, for which the claim
requires true — yet the predicate returns false. -/
theorem shouldRequeueForApplicationSet_misses_simultaneous_change :
    shouldRequeueForApplicationSet false
        { specV := 0, labels := [], finalizers := [], deletionTimestamp := none,
          appStatuses := [],
          annotations := [(applicationSetRefreshKey, "true"), ("x", "1")] }
        { specV := 0, labels := [], finalizers := [], deletionTimestamp := none,
          appStatuses := [], annotations := [("x", "2")] } = false ∧
    mapsEqual [(applicationSetRefreshKey, "true"), ("x", "1")] [("x", "2")] = false ∧
    annotationsSolelyRefreshRemoved
        [(applicationSetRefreshKey, "true"), ("x", "1")] [("x", "2")] = false := by
  refine ⟨?_, ?_, ?_⟩ <;> decide

/-! ## Theorems: C5 -/

/-- Claim C5: after every condition update via
`setApplicationSetStatusCondition`, the resulting set is cross-consistent:
a True ResourcesUpToDate comes with a paired ErrorOccurred=False of the same
reason and message; a True ErrorOccurred comes with a paired
ResourcesUpToDate=False with reason ErrorOccurred; a ParametersGenerated
condition mirroring the supplied flag is present; and with a non-RollingSync
strategy no RolloutProgressing condition is present.  The two hypotheses
reflect the call sites: the controller never supplies a ParametersGenerated
condition directly, and supplies RolloutProgressing only when the RollingSync
strategy is configured. -/
theorem setStatusCondition_cross_consistent (rolling : Bool)
    (old : List Condition) (condition : Condition) (parametersGenerated : Bool)
    (hPG : condition.ctype ≠ CondType.parametersGenerated)
    (hRP : condition.ctype = CondType.rolloutProgressing → rolling = true) :
    (condition.ctype = CondType.resourcesUpToDate → condition.status = CStatus.ctrue →
      ({ ctype := CondType.errorOccurred, status := CStatus.cfalse,
         reason := condition.reason, message := condition.message } : Condition) ∈
        setApplicationSetStatusCondition rolling old condition parametersGenerated) ∧
    (condition.ctype = CondType.errorOccurred → condition.status = CStatus.ctrue →
      ({ ctype := CondType.resourcesUpToDate, status := CStatus.cfalse,
         reason := "ErrorOccurred", message := condition.message } : Condition) ∈
        setApplicationSetStatusCondition rolling old condition parametersGenerated) ∧
    (∃ c ∈ setApplicationSetStatusCondition rolling old condition parametersGenerated,
      c.ctype = CondType.parametersGenerated ∧
        (c.status = CStatus.ctrue ↔ parametersGenerated = true)) ∧
    (rolling = false →
      ∀ c ∈ setApplicationSetStatusCondition rolling old condition parametersGenerated,
        c.ctype ≠ CondType.rolloutProgressing) := by
  unfold setApplicationSetStatusCondition setConditionsModel newConditionsFor
    evaluatedTypesFor getParametersGeneratedCondition
  refine ⟨?_, ?_, ?_, ?_⟩
  · intro ht hs
    cases condition with
    | mk t s reasonF messageF =>
        simp only at ht hs
        subst ht; subst hs
        simp
  · intro ht hs
    cases condition with
    | mk t s reasonF messageF =>
        simp only at ht hs
        subst ht; subst hs
        simp
  · cases condition with
    | mk t s reasonF messageF =>
        simp only at hPG
        cases parametersGenerated with
        | true =>
            refine ⟨{ ctype := CondType.parametersGenerated, status := CStatus.ctrue,
                      reason := "ParametersGenerated",
                      message := "Successfully generated parameters for all Applications" }, ?_, by simp⟩
            cases t <;> cases s <;> simp_all
        | false =>
            refine ⟨{ ctype := CondType.parametersGenerated, status := CStatus.cfalse,
                      reason := "ErrorOccurred", message := messageF }, ?_, by simp⟩
            cases t <;> cases s <;> simp_all
  · intro hroll c hc
    subst hroll
    cases condition with
    | mk t s reasonF messageF =>
        simp only at hPG hRP
        have ht : t ≠ CondType.rolloutProgressing := by
          intro he
          exact absurd (hRP he) (by simp)
        intro hct
        cases parametersGenerated <;> cases t <;> cases s <;> simp_all <;>
          casesm* _ ∨ _ <;> simp_all

/-- Witness for C5 at a concrete input: updating with a True
ResourcesUpToDate under a non-RollingSync strategy yields the paired
ErrorOccurred=False and drops a stale RolloutProgressing condition. -/
theorem setStatusCondition_cross_consistent_witness :
    (({ ctype := CondType.errorOccurred, status := CStatus.cfalse,
        reason := "ApplicationSetUpToDate",
        message := "All applications have been generated successfully" } : Condition) ∈
      setApplicationSetStatusCondition false
        [{ ctype := CondType.rolloutProgressing, status := CStatus.ctrue,
           reason := "ApplicationSetModified", message := "rollout" }]
        { ctype := CondType.resourcesUpToDate, status := CStatus.ctrue,
          reason := "ApplicationSetUpToDate",
          message := "All applications have been generated successfully" } true) ∧
    (∀ c ∈ setApplicationSetStatusCondition false
        [{ ctype := CondType.rolloutProgressing, status := CStatus.ctrue,
           reason := "ApplicationSetModified", message := "rollout" }]
        { ctype := CondType.resourcesUpToDate, status := CStatus.ctrue,
          reason := "ApplicationSetUpToDate",
          message := "All applications have been generated successfully" } true,
      c.ctype ≠ CondType.rolloutProgressing) := by
  have h := setStatusCondition_cross_consistent false
    [{ ctype := CondType.rolloutProgressing, status := CStatus.ctrue,
       reason := "ApplicationSetModified", message := "rollout" }]
    { ctype := CondType.resourcesUpToDate, status := CStatus.ctrue,
      reason := "ApplicationSetUpToDate",
      message := "All applications have been generated successfully" } true
    (by decide) (by decide)
  exact ⟨h.1 rfl rfl, h.2.2.2 rfl⟩

/-! ## Theorems: C9 -/

/-- Helper: the change detector reports no difference exactly on equal
lists; a `Condition` consists exactly of the four compared fields. -/
theorem conditionsDiffer_eq_false_iff : ∀ (a b : List Condition),
    conditionsDiffer a b = false ↔ a = b := by
  intro a
  induction a with
  | nil =>
      intro b
      cases b <;> simp [conditionsDiffer]
  | cons x xs ih =>
      intro b
      cases b with
      | nil => simp [conditionsDiffer]
      | cons y ys =>
          have h := ih ys
          unfold conditionsDiffer at h ⊢
          cases x with
          | mk xt xst xr xm =>
              cases y with
              | mk yt yst yr ym =>
                  simp only [List.length_cons, List.zip_cons_cons, List.any_cons,
                    Bool.or_eq_false_iff, List.cons.injEq, Condition.mk.injEq] at *
                  constructor
                  · intro ⟨hlen, hhead, htail⟩
                    simp only [decide_eq_false_iff_not, not_not, Bool.not_eq_false,
                      Bool.or_eq_false_iff] at hlen hhead
                    obtain ⟨⟨⟨ht, hr⟩, hst⟩, hm⟩ := hhead
                    refine ⟨⟨ht, hst, hr, hm⟩, ?_⟩
                    apply h.mp
                    constructor
                    · simpa using hlen
                    · exact htail
                  · intro ⟨⟨ht, hst, hr, hm⟩, htail⟩
                    subst ht; subst hst; subst hr; subst hm; subst htail
                    have h2 := h.mpr rfl
                    simp only [Bool.or_eq_false_iff] at h2
                    refine ⟨?_, ?_, h2.2⟩
                    · simp
                    · simp

/-- Helper: applying the condition computation twice with the same inputs
gives the same set, since the evaluated new conditions and the preserved old
conditions are complementary filters. -/
theorem setStatusCondition_apply_twice (rolling : Bool) (old : List Condition)
    (condition : Condition) (parametersGenerated : Bool) :
    setApplicationSetStatusCondition rolling
        (setApplicationSetStatusCondition rolling old condition parametersGenerated)
        condition parametersGenerated =
      setApplicationSetStatusCondition rolling old condition parametersGenerated := by
  unfold setApplicationSetStatusCondition setConditionsModel
  rw [List.filter_append]
  congr 1
  rw [List.filter_filter]
  have h1 : ∀ c : Condition,
      ((!evaluatedTypesFor rolling condition c.ctype) &&
        evaluatedTypesFor rolling condition c.ctype) = false := by
    intro c
    cases hv : evaluatedTypesFor rolling condition c.ctype <;> simp [hv]
  calc (newConditionsFor condition parametersGenerated).filter
        (fun c => (!evaluatedTypesFor rolling condition c.ctype) &&
          evaluatedTypesFor rolling condition c.ctype) ++
        (old.filter (fun c => !evaluatedTypesFor rolling condition c.ctype)).filter
          (fun c => !evaluatedTypesFor rolling condition c.ctype)
      = [] ++ (old.filter (fun c => !evaluatedTypesFor rolling condition c.ctype)).filter
          (fun c => !evaluatedTypesFor rolling condition c.ctype) := by
        congr 1
        apply List.filter_eq_nil_iff.mpr
        intro c _
        simp [h1 c]
    _ = old.filter (fun c => !evaluatedTypesFor rolling condition c.ctype) := by
        rw [List.nil_append, List.filter_filter]
        apply List.filter_congr
        intro c _
        cases hv : evaluatedTypesFor rolling condition c.ctype <;> simp [hv]

/-- Claim C9: the condition routine performs no store write exactly when the
newly computed condition set equals the prior set under element-wise,
in-order comparison of type, reason, status and message (a `Condition` is
exactly those four fields); consequently applying the same condition twice
in a row performs no second write. -/
theorem setStatusCondition_write_skip_idempotent (rolling : Bool)
    (old : List Condition) (condition : Condition) (parametersGenerated : Bool) :
    (setApplicationSetStatusConditionWrites rolling old condition parametersGenerated = false ↔
      setApplicationSetStatusCondition rolling old condition parametersGenerated = old) ∧
    setApplicationSetStatusConditionWrites rolling
        (setApplicationSetStatusCondition rolling old condition parametersGenerated)
        condition parametersGenerated = false := by
  constructor
  · unfold setApplicationSetStatusConditionWrites
    exact conditionsDiffer_eq_false_iff _ _
  · unfold setApplicationSetStatusConditionWrites
    rw [conditionsDiffer_eq_false_iff]
    exact setStatusCondition_apply_twice rolling old condition parametersGenerated

/-! ## Theorems: C7 -/

/-- Claim C7 counterexample: with the deletion timestamp set and a policy
that forbids delete, the teardown branch removes the owner references but
then still proceeds: with no Reverse order configured it removes the parent
resources finalizer in the same invocation, and with Reverse order
configured it still initiates a child deletion. -/
theorem reconcileDeletion_finalizer_removed_despite_forbid :
    (reconcileDeletionBranch false false 0 []
        (fun _ => (none : Option (Option Int)))).finalizerRemoved = true ∧
    (reconcileDeletionBranch false false 0 []
        (fun _ => (none : Option (Option Int)))).ownerRefsRemoved = true ∧
    (reconcileDeletionBranch false true 1 [("a", 0)]
        (fun n => if n = "a" then (some none : Option (Option Int)) else none)).deleted
      = ["a"] := by
  refine ⟨rfl, rfl, rfl⟩

/-- Claim C7 (amended): when the parent deletion timestamp is set and the
effective sync policy forbids delete, the reconciler removes the owner
references from all live children, but does not return early: when Reverse
deletion order is not configured it performs no child deletion and removes
the parent resources finalizer with no requeue and no error in the same
invocation (and when Reverse order is configured the reverse-deletion pass
still runs). -/
theorem reconcileDeletion_policy_forbids_delete_behavior (reverse : Bool)
    (stepLength : Nat) (entries : List (String × Nat)) (store : DeletionStore) :
    (reconcileDeletionBranch false reverse stepLength entries store).ownerRefsRemoved = true ∧
    (reverse = false →
      (reconcileDeletionBranch false reverse stepLength entries store).deleted = [] ∧
      (reconcileDeletionBranch false reverse stepLength entries store).finalizerRemoved = true ∧
      (reconcileDeletionBranch false reverse stepLength entries store).requeueAfter = 0 ∧
      (reconcileDeletionBranch false reverse stepLength entries store).isError = false) := by
  constructor
  · unfold reconcileDeletionBranch
    cases reverse with
    | false => rfl
    | true =>
        simp only []
        cases performReverseDeletion stepLength entries store <;> rfl
  · intro hrev
    subst hrev
    exact ⟨rfl, rfl, rfl, rfl⟩

/-- Witness for C7 at a concrete input. -/
theorem reconcileDeletion_policy_forbids_delete_behavior_witness :
    (reconcileDeletionBranch false false 2 [("a", 0)]
        (fun _ => (none : Option (Option Int)))).ownerRefsRemoved = true ∧
    (reconcileDeletionBranch false false 2 [("a", 0)]
        (fun _ => (none : Option (Option Int)))).finalizerRemoved = true :=
  have h := reconcileDeletion_policy_forbids_delete_behavior false 2 [("a", 0)]
    (fun _ => (none : Option (Option Int)))
  ⟨h.1, (h.2 rfl).2.1⟩

/-! ## Theorems: C4 -/

/-- Helper: the reverse walk reports a fatal outcome exactly when the first
child of the traversal still present in the store is marked for deletion
for more than 2 minutes. -/
theorem performReverseDeletionGo_fatal_iff :
    ∀ (l : List (String × Int)) (store : DeletionStore),
      (∃ a, performReverseDeletionGo l store = .fatal a) ↔
        ∃ a t age, l.find? (fun e => (store e.1).isSome) = some (a, t) ∧
          store a = some (some age) ∧ 120 < age := by
  intro l
  induction l with
  | nil =>
      intro store
      simp [performReverseDeletionGo]
  | cons e rest ih =>
      intro store
      cases hs : store e.1 with
      | none =>
          rw [List.find?_cons_of_neg _ (by simp [hs])]
          simp only [performReverseDeletionGo, hs]
          exact ih store
      | some mark =>
          rw [List.find?_cons_of_pos _ (by simp [hs])]
          cases mark with
          | none =>
              simp only [performReverseDeletionGo, hs]
              constructor
              · intro ⟨a, ha⟩; cases ha
              · intro ⟨a, t, age, hfind, hstore, hage⟩
                have : a = e.1 ∧ t = e.2 := by
                  have := Option.some.inj hfind
                  exact ⟨(congrArg Prod.fst this).symm, (congrArg Prod.snd this).symm⟩
                rw [this.1] at hstore
                rw [hs] at hstore
                cases hstore
          | some age =>
              simp only [performReverseDeletionGo, hs]
              by_cases hage : age > 120
              · simp only [hage, if_true]
                constructor
                · intro _
                  exact ⟨e.1, e.2, age, rfl, hs, hage⟩
                · intro _
                  exact ⟨e.1, rfl⟩
              · simp only [hage, if_false]
                constructor
                · intro ⟨a, ha⟩; cases ha
                · intro ⟨a, t, age2, hfind, hstore, hage2⟩
                  have heq : a = e.1 ∧ t = e.2 := by
                    have := Option.some.inj hfind
                    exact ⟨(congrArg Prod.fst this).symm, (congrArg Prod.snd this).symm⟩
                  rw [heq.1] at hstore
                  rw [hs] at hstore
                  have : age = age2 := by
                    have := Option.some.inj hstore
                    exact Option.some.inj this
                  omega

/-- Helper: the reverse walk reports completion exactly when every traversed
child is gone from the store. -/
theorem performReverseDeletionGo_allDone_iff :
    ∀ (l : List (String × Int)) (store : DeletionStore),
      performReverseDeletionGo l store = .allDone ↔
        ∀ e ∈ l, store e.1 = none := by
  intro l
  induction l with
  | nil => intro store; simp [performReverseDeletionGo]
  | cons e rest ih =>
      intro store
      cases hs : store e.1 with
      | none =>
          simp only [performReverseDeletionGo, hs]
          rw [ih store]
          constructor
          · intro h x hx
            rcases List.mem_cons.mp hx with rfl | hx2
            · exact hs
            · exact h x hx2
          · intro h x hx
            exact h x (List.mem_cons_of_mem e hx)
      | some mark =>
          have hne : ¬ (∀ x ∈ e :: rest, store x.1 = none) := by
            intro h
            have := h e (List.mem_cons_self e rest)
            rw [hs] at this
            cases this
          cases mark with
          | none =>
              simp only [performReverseDeletionGo, hs]
              constructor
              · intro h; cases h
              · intro h; exact absurd h hne
          | some age =>
              simp only [performReverseDeletionGo, hs]
              by_cases hage : age > 120 <;> simp only [hage, if_true, if_false]
              · constructor
                · intro h; cases h
                · intro h; exact absurd h hne
              · constructor
                · intro h; cases h
                · intro h; exact absurd h hne

/-- Helper: membership in the sorted traversal matches the step map. -/
theorem mem_reverseDeleteOrder (stepLength : Nat) (entries : List (String × Nat))
    (p : String × Int) :
    p ∈ reverseDeleteOrder stepLength entries ↔
      ∃ q ∈ entries, p.1 = q.1 ∧ p.2 = (stepLength : Int) - (q.2 : Int) - 1 := by
  unfold reverseDeleteOrder
  rw [mem_sortLe]
  rw [List.mem_map]
  constructor
  · intro ⟨q, hq, he⟩
    exact ⟨q, hq, by rw [← he], by rw [← he]⟩
  · intro ⟨q, hq, h1, h2⟩
    refine ⟨q, hq, ?_⟩
    cases p with
    | mk p1 p2 => simp_all

/-- Claim C4 (amended): the reverse-deletion pass walks the step-assigned
children in reverse step order (the traversal is sorted so original steps
descend); it initiates at most one deletion, and returns the 10-second
requeue exactly when it initiated one; it reports the fatal
marked-for-more-than-2-minutes error exactly when the first traversed child
still present in the store is such a child, with no requeue; it reports
completion (zero requeue, no error) exactly when every step-assigned child
is gone; and the teardown branch removes the parent resources finalizer
exactly in that case.  Children selected by no step are not traversed (see
the counterexample). -/
theorem performReverseDeletion_behavior (stepLength : Nat)
    (entries : List (String × Nat)) (store : DeletionStore) :
    ((reverseDeleteOrder stepLength entries).Pairwise (fun a b => a.2 ≤ b.2)) ∧
    (∀ p ∈ reverseDeleteOrder stepLength entries, ∃ q ∈ entries,
      p.1 = q.1 ∧ p.2 = (stepLength : Int) - (q.2 : Int) - 1) ∧
    ((passDeletions (performReverseDeletion stepLength entries store)).length ≤ 1) ∧
    (passRequeue (performReverseDeletion stepLength entries store) = 10 ↔
      ∃ a, performReverseDeletion stepLength entries store = .deleteInitiated a) ∧
    ((∃ a, performReverseDeletion stepLength entries store = .fatal a) ↔
      ∃ a t age, (reverseDeleteOrder stepLength entries).find?
          (fun e => (store e.1).isSome) = some (a, t) ∧
        store a = some (some age) ∧ 120 < age) ∧
    (passRequeue (performReverseDeletion stepLength entries store) = 0 ↔
      ¬ ∃ a, performReverseDeletion stepLength entries store = .deleteInitiated a) ∧
    (performReverseDeletion stepLength entries store = .allDone ↔
      ∀ e ∈ entries, store e.1 = none) ∧
    (∀ allowDelete,
      (reconcileDeletionBranch allowDelete true stepLength entries store).finalizerRemoved
          = true ↔ ∀ e ∈ entries, store e.1 = none) := by
  have htot : ∀ a b : String × Int,
      ((fun a b : String × Int => decide (a.2 ≤ b.2)) a b ||
        (fun a b : String × Int => decide (a.2 ≤ b.2)) b a) = true := by
    intro a b
    rcases Int.le_total a.2 b.2 with h | h <;> simp [h]
  have htrans : ∀ a b c : String × Int,
      (fun a b : String × Int => decide (a.2 ≤ b.2)) a b = true →
      (fun a b : String × Int => decide (a.2 ≤ b.2)) b c = true →
      (fun a b : String × Int => decide (a.2 ≤ b.2)) a c = true := by
    intro a b c hab hbc
    simp only [decide_eq_true_eq] at *
    omega
  have hAD := performReverseDeletionGo_allDone_iff
    (reverseDeleteOrder stepLength entries) store
  have hADentries : performReverseDeletion stepLength entries store = .allDone ↔
      ∀ e ∈ entries, store e.1 = none := by
    unfold performReverseDeletion
    rw [hAD]
    constructor
    · intro h q hq
      exact h (q.1, (stepLength : Int) - (q.2 : Int) - 1)
        ((mem_reverseDeleteOrder stepLength entries _).mpr ⟨q, hq, rfl, rfl⟩)
    · intro h p hp
      rcases (mem_reverseDeleteOrder stepLength entries p).mp hp with ⟨q, hq, h1, _⟩
      rw [h1]
      exact h q hq
  refine ⟨?_, ?_, ?_, ?_, ?_, ?_, hADentries, ?_⟩
  · have hp := pairwise_sortLe (fun a b : String × Int => decide (a.2 ≤ b.2)) htot htrans
      (entries.map (fun e => (e.1, (stepLength : Int) - (e.2 : Int) - 1)))
    exact hp.imp (fun h => by simpa using h)
  · intro p hp
    exact (mem_reverseDeleteOrder stepLength entries p).mp hp
  · cases performReverseDeletion stepLength entries store <;> simp [passDeletions]
  · cases h : performReverseDeletion stepLength entries store <;> simp [passRequeue, h]
  · exact performReverseDeletionGo_fatal_iff (reverseDeleteOrder stepLength entries) store
  · cases h : performReverseDeletion stepLength entries store <;> simp [passRequeue, h]
  · intro allowDelete
    unfold reconcileDeletionBranch
    simp only [if_true]
    cases hres : performReverseDeletion stepLength entries store with
    | fatal a =>
        simp only []
        constructor
        · intro h; cases h
        · intro h
          rw [hADentries.mpr h] at hres
          cases hres
    | deleteInitiated a =>
        simp only []
        constructor
        · intro h; cases h
        · intro h
          rw [hADentries.mpr h] at hres
          cases hres
    | allDone =>
        simp only []
        constructor
        · intro _
          exact hADentries.mp hres
        · intro _; trivial

/-- Claim C4 counterexample: a live child selected by no step (its labels
fail the only match expression of the single step) is absent from the step
map, so the reverse-deletion pass never visits it: the pass reports
completion and the teardown branch removes the parent resources finalizer
while the child is still live, contradicting the claim that only when every
child has been removed does the pass return zero requeue. -/
theorem performReverseDeletion_skips_unassigned_child :
    appStepEntries [("x", [])]
        [{ matchExpressions := [{ key := "k", operator := "In", values := ["v"] }],
           maxUpdate := none }] = [] ∧
    performReverseDeletion 1
        (appStepEntries [("x", [])]
          [{ matchExpressions := [{ key := "k", operator := "In", values := ["v"] }],
             maxUpdate := none }])
        (fun n => if n = "x" then (some none : Option (Option Int)) else none)
      = .allDone ∧
    (reconcileDeletionBranch true true 1
        (appStepEntries [("x", [])]
          [{ matchExpressions := [{ key := "k", operator := "In", values := ["v"] }],
             maxUpdate := none }])
        (fun n => if n = "x" then (some none : Option (Option Int)) else none)).finalizerRemoved
      = true ∧
    (fun n => if n = "x" then (some none : Option (Option Int)) else none) "x" = some none := by
  refine ⟨rfl, rfl, rfl, by decide⟩

/-! ## Theorems: C2 -/

/-- Helper: one-step unfolding of the Pending/Progressing counter. -/
theorem countPPStep_cons (stepMap : String → Option Nat) (i : Nat)
    (x : AppStatus) (l : List AppStatus) :
    countPPStep stepMap i (x :: l) = countPPStep stepMap i l +
      (if stepIdxOf stepMap x.application = i ∧
          (x.status = "Pending" ∨ x.status = "Progressing") then 1 else 0) := by
  unfold countPPStep
  rw [List.countP_cons]
  by_cases h : stepIdxOf stepMap x.application = i ∧
      (x.status = "Pending" ∨ x.status = "Progressing")
  · have hb : (decide (stepIdxOf stepMap x.application = i) &&
        (decide (x.status = "Pending") || decide (x.status = "Progressing"))) = true := by
      simp [h.1, h.2]
    rw [hb, if_pos h]
    push_cast
    simp
  · have hb : (decide (stepIdxOf stepMap x.application = i) &&
        (decide (x.status = "Pending") || decide (x.status = "Progressing"))) = false := by
      rw [not_and_or] at h
      rcases h with h1 | h2
      · simp [h1]
      · rw [not_or] at h2
        simp [h2.1, h2.2]
    rw [hb, if_neg h]
    push_cast
    simp

/-- Helper: the promotion loop never lifts the Pending/Progressing count of
a capped step above the larger of its incoming counter and the resolved
cap: a promotion into step `i` requires the counter to be strictly below
the cap and increments it. -/
theorem updateStatusProgressGo_count (steps : List ApplicationSetRolloutStep)
    (totals : Nat → Int) (syncMap : String → Bool) (stepMap : String → Option Nat)
    (now : Int) (i : Nat) (c : Int)
    (hc : ((steps.get? i).bind (fun st => st.maxUpdate)).map
        (fun mu => resolveMaxUpdate mu (totals i)) = some c) :
    ∀ (rest : List AppStatus) (uc : Nat → Int),
      countPPStep stepMap i
          (updateStatusProgressGo steps totals syncMap stepMap now uc rest) ≤
        countPPStep stepMap i rest + max 0 (c - uc i) := by
  rcases Option.map_eq_some'.mp hc with ⟨mu, hmu, hres⟩
  intro rest
  induction rest with
  | nil =>
      intro uc
      simp only [updateStatusProgressGo, countPPStep, List.countP_nil]
      have := le_max_left 0 (c - uc i)
      omega
  | cons a rest ih =>
      intro uc
      simp only [updateStatusProgressGo]
      split
      case isTrue h =>
          simp only [Bool.and_eq_true, decide_eq_true_eq] at h
          obtain ⟨⟨hwait, _⟩, hallowed⟩ := h
          rw [countPPStep_cons, countPPStep_cons]
          have hpp_a : ¬ (stepIdxOf stepMap a.application = i ∧
              (a.status = "Pending" ∨ a.status = "Progressing")) := by
            intro ⟨_, hor⟩
            rcases hor with hx | hx <;> rw [hwait] at hx <;> exact absurd hx (by decide)
          rw [if_neg hpp_a]
          by_cases hi : stepIdxOf stepMap a.application = i
          · have hcap : uc i < c := by
              rw [hi, hmu] at hallowed
              simp only [Bool.not_eq_true', decide_eq_false_iff_not, not_le] at hallowed
              rw [hres] at hallowed
              exact hallowed
            rw [if_pos (show stepIdxOf stepMap a.application = i ∧
              ((("Pending" : String) = "Pending") ∨ (("Pending" : String) = "Progressing"))
              from ⟨hi, Or.inl rfl⟩)]
            have hih := ih (fun j => if j = stepIdxOf stepMap a.application then uc j + 1 else uc j)
            have huc : (if i = stepIdxOf stepMap a.application then uc i + 1 else uc i)
                = uc i + 1 := by
              rw [if_pos hi.symm]
            rw [huc] at hih
            have hm1 : max 0 (c - (uc i + 1)) = c - uc i - 1 := by omega
            have hm2 : max 0 (c - uc i) = c - uc i := by omega
            omega
          · rw [if_neg (show ¬ (stepIdxOf stepMap a.application = i ∧
              ((("Pending" : String) = "Pending") ∨ (("Pending" : String) = "Progressing")))
              from fun hx => hi hx.1)]
            have hih := ih (fun j => if j = stepIdxOf stepMap a.application then uc j + 1 else uc j)
            have huc : (if i = stepIdxOf stepMap a.application then uc i + 1 else uc i)
                = uc i := by
              rw [if_neg (fun hx => hi hx.symm)]
            rw [huc] at hih
            omega
      case isFalse h =>
          rw [countPPStep_cons, countPPStep_cons]
          have hih := ih uc
          by_cases hpp : stepIdxOf stepMap a.application = i ∧
              (a.status = "Pending" ∨ a.status = "Progressing")
          · rw [if_pos hpp]
            omega
          · rw [if_neg hpp]
            omega

/-- Claim C2 (amended): after the Waiting-to-Pending promotion pass, the
number of Pending or Progressing entries attributed to a step never exceeds
the larger of its incoming count and the resolved `maxUpdate` for that step
— so whenever the incoming count respects the cap, the outgoing count does
too — where the resolved value of an integer is the integer itself, a
percentage is the rounded-down fraction of the step total except that a
`maxUpdate` string other than the literal 0 percent whose value resolves
below 1 (including invalid strings, which only log) resolves to 1, and an
absent `maxUpdate` means no cap. -/
theorem statusProgress_maxUpdate_cap (steps : List ApplicationSetRolloutStep)
    (syncMap : String → Bool) (stepMap : String → Option Nat) (now : Int)
    (statuses : List AppStatus) (i : Nat) (c : Int)
    (hc : ((steps.get? i).bind (fun st => st.maxUpdate)).map
        (fun mu => resolveMaxUpdate mu (countTotalStep stepMap i statuses)) = some c) :
    countPPStep stepMap i
        (updateApplicationSetApplicationStatusProgress steps syncMap stepMap now statuses) ≤
      max (countPPStep stepMap i statuses) c := by
  unfold updateApplicationSetApplicationStatusProgress
  have hlem := updateStatusProgressGo_count steps
    (fun j => countTotalStep stepMap j statuses) syncMap stepMap now i c hc
    statuses (fun j => countPPStep stepMap j statuses)
  simp only [] at hlem
  omega

/-- Witness for C2 at a concrete input: two Waiting applications in a single
step with integer maxUpdate 1. -/
theorem statusProgress_maxUpdate_cap_witness :
    countPPStep (fun _ => some 0) 0
        (updateApplicationSetApplicationStatusProgress
          [{ matchExpressions := [], maxUpdate := some (.int 1) }]
          (fun _ => true) (fun _ => some 0) 0
          [{ application := "a", message := "m", status := "Waiting", step := "1",
             lastTransitionTime := none, targetRevisions := none },
           { application := "b", message := "m", status := "Waiting", step := "1",
             lastTransitionTime := none, targetRevisions := none }]) ≤
      max (countPPStep (fun _ => some 0) 0
        [{ application := "a", message := "m", status := "Waiting", step := "1",
           lastTransitionTime := none, targetRevisions := none },
         { application := "b", message := "m", status := "Waiting", step := "1",
           lastTransitionTime := none, targetRevisions := none }]) 1 :=
  statusProgress_maxUpdate_cap
    [{ matchExpressions := [], maxUpdate := some (.int 1) }]
    (fun _ => true) (fun _ => some 0) 0
    [{ application := "a", message := "m", status := "Waiting", step := "1",
       lastTransitionTime := none, targetRevisions := none },
     { application := "b", message := "m", status := "Waiting", step := "1",
       lastTransitionTime := none, targetRevisions := none }] 0 1 (by decide)

/-- Claim C2 counterexample: with `maxUpdate` the percentage string 00%
(value zero, but not the literal 0%), the claim resolves the cap to 0 and
the incoming Pending/Progressing count is 0, yet the pass promotes one
application, so the claimed bound is exceeded — the code compares the
literal string against 0% (line 1253) and raises the cap of any other
below-1 string to 1. -/
theorem statusProgress_zero_percent_variant_exceeds_claim_cap :
    maxUpdateResolvedClaim (some (.str "00%"))
        (countTotalStep (fun _ => some 0) 0
          [{ application := "a", message := "m", status := "Waiting", step := "1",
             lastTransitionTime := none, targetRevisions := none }]) = some 0 ∧
    countPPStep (fun _ => some 0) 0
        [{ application := "a", message := "m", status := "Waiting", step := "1",
           lastTransitionTime := none, targetRevisions := none }] = 0 ∧
    countPPStep (fun _ => some 0) 0
        (updateApplicationSetApplicationStatusProgress
          [{ matchExpressions := [], maxUpdate := some (.str "00%") }]
          (fun _ => true) (fun _ => some 0) 0
          [{ application := "a", message := "m", status := "Waiting", step := "1",
             lastTransitionTime := none, targetRevisions := none }]) = 1 := by
  refine ⟨by decide, by decide, by decide⟩
